import Mathlib

set_option maxRecDepth 100000

/-!
# Verification of the IMU UART frame checker

Shallow embedding of `imu_uart_crc_check.py`: a firmware-compatible CRC32
(reflected polynomial `0xEDB88320`, seed 1, no final xor), a resynchronizing
frame scanner over a byte buffer, and the continuity statistics of `main`.

Bytes are modelled as `Nat` (Python `bytes` indexing yields integers 0..255),
buffers as `List Nat`.  Python's unbounded integers are modelled by plain
`Nat` with the very masks the source applies (`&&& 0xFF`, `&&& 0xFFFFFFFF`).
Python exceptions (`IndexError` from `data[i]`, `struct.error` from
`struct.unpack_from`) are modelled by `Option`: `none` means the scan raised.
-/

namespace IMU

/-- One round of the table construction:
`c = 0xEDB88320 ^ (c >> 1) if (c & 1) else (c >> 1)`. -/
def crcRound (c : Nat) : Nat :=
  if c &&& 1 = 1 then 0xEDB88320 ^^^ (c >>> 1) else c >>> 1

/-- `for _ in range(n): c = crcRound(c)`. -/
def crcRounds : Nat → Nat → Nat
  | 0, c => c
  | n + 1, c => crcRounds n (crcRound c)

/-- Entry of the 256-entry table at index `i`: 8 rounds starting from `i`. -/
def crcEntry (i : Nat) : Nat := crcRounds 8 i

/-- `build_crc32_table()`: the 256-entry lookup table, as a list. -/
def build_crc32_table : List Nat := (List.range 256).map crcEntry

/-- `CRC32_TAB = build_crc32_table()`, built once at import time. -/
def CRC32_TAB : List Nat := build_crc32_table

/-- One loop iteration of `crc32_fw`:
`crc = CRC32_TAB[(crc ^ b) & 0xFF] ^ (crc >> 8)`. -/
def crcStep (crc b : Nat) : Nat :=
  CRC32_TAB.getD ((crc ^^^ b) &&& 0xFF) 0 ^^^ (crc >>> 8)

/-- `crc32_fw(buf, crc)`: fold `crcStep` over the bytes, then truncate with
`& 0xFFFFFFFF` exactly as the Python source does (a single final mask). -/
def crc32_fw (buf : List Nat) (crc : Nat) : Nat :=
  (buf.foldl crcStep crc) &&& 0xFFFFFFFF

/-- Modelled from the spec (section 4.1), for the refinement claim about
`crc32_fw`: one table-construction round in the spec's words — shift the
accumulator right one bit and xor `0xEDB88320` when the shifted-out bit
was 1 — written with `/` and `%` rather than the source's operators. -/
def specRound (c : Nat) : Nat :=
  if c % 2 = 1 then (c / 2) ^^^ 0xEDB88320 else c / 2

/-- Modelled from the spec: `n` rounds of `specRound`. -/
def specRounds : Nat → Nat → Nat
  | 0, c => c
  | n + 1, c => specRounds n (specRound c)

/-- Modelled from the spec: `table[i]` obtained from `i` by 8 rounds. -/
def specTable (i : Nat) : Nat := specRounds 8 i

/-- Modelled from the spec (section 4.1): the reference reflected CRC32 over
unsigned 32-bit wraparound arithmetic — every intermediate value is reduced
modulo `2^32`, unlike the Python source which masks only once at the end. -/
def crc32_spec (buf : List Nat) (seed : Nat) : Nat :=
  buf.foldl (fun crc b => ((specTable ((crc ^^^ b) % 256)) ^^^ (crc / 256)) % 2 ^ 32) seed

/-- The short-circuiting header test
`data[i] == 0xA5 and data[i+1] == 0x5A and data[i+2] == 0x01 and data[i+3] == 0x3C`.
`none` models an `IndexError` from an out-of-range access that is actually
evaluated (later accesses are skipped as soon as one comparison fails). -/
def headerAt (data : List Nat) (i : Nat) : Option Bool :=
  match data[i]? with
  | none => none
  | some b0 =>
    if b0 = 0xA5 then
      match data[i + 1]? with
      | none => none
      | some b1 =>
        if b1 = 0x5A then
          match data[i + 2]? with
          | none => none
          | some b2 =>
            if b2 = 0x01 then
              match data[i + 3]? with
              | none => none
              | some b3 => some (decide (b3 = 0x3C))
            else some false
        else some false
    else some false

/-- `struct.unpack_from("<I", buf, off)[0]`: little-endian unsigned 32-bit
read; `none` models `struct.error` when fewer than 4 bytes are available at
`off` (Python's negative offsets, arising for `frame_size < 4`, also fail on
the buffers at hand and are likewise `none` here). -/
def readLE32 (buf : List Nat) (off : Nat) : Option Nat :=
  if off + 4 ≤ buf.length then
    some (buf.getD off 0 + 256 * buf.getD (off + 1) 0 +
          65536 * buf.getD (off + 2) 0 + 16777216 * buf.getD (off + 3) 0)
  else none

/-- The `while i + frame_size <= len(data)` loop of `analyze_file`, as
structural recursion on a fuel counter (one unit per loop iteration; since
the cursor strictly increases whenever `1 ≤ fs`, fuel `data.length + 1`
always suffices — see `scanGo_isSome_of_fuel`).  State: cursor `i`, counts
`ok`/`bad`, extracted lists `ts`/`offsets`.  `none` models a raised
exception (never mere fuel exhaustion when called through `analyze_file`
with `1 ≤ fs`). -/
def scanGo (data : List Nat) (fs : Nat) :
    Nat → Nat → Nat → Nat → List Nat → List Nat →
    Option (Nat × Nat × List Nat × List Nat)
  | 0, _, _, _, _, _ => none
  | fuel + 1, i, ok, bad, ts, offsets =>
    if i + fs ≤ data.length then
      match headerAt data i with
      | none => none
      | some false => scanGo data fs fuel (i + 1) ok bad ts offsets
      | some true =>
        let frm := (data.drop i).take fs
        match readLE32 frm (fs - 4) with
        | none => none
        | some c_recv =>
          if crc32_fw (frm.take (frm.length - 4)) 1 = c_recv then
            match readLE32 frm 56 with
            | none => none
            | some tsv =>
              scanGo data fs fuel (i + fs) (ok + 1) bad (ts ++ [tsv]) (offsets ++ [i])
          else scanGo data fs fuel (i + 1) ok (bad + 1) ts offsets
    else some (ok, bad, ts, offsets)

/-- `analyze_file(path, frame_size)` after `data = path.read_bytes()`:
the full scan from cursor 0 with empty accumulators.  Returns
`some (ok, bad, ts, offsets)` on normal termination, `none` if the Python
code would raise. -/
def analyze_file (data : List Nat) (fs : Nat) : Option (Nat × Nat × List Nat × List Nat) :=
  scanGo data fs (data.length + 1) 0 0 0 [] []

/-- `sum(1 for a, b in zip(ts, ts[1:]) if b >= a)`. -/
def monoCount (ts : List Nat) : Nat :=
  (ts.zip ts.tail).countP (fun p => decide (p.1 ≤ p.2))

/-- `[b - a for a, b in zip(ts, ts[1:])]` (Python ints: signed). -/
def deltasOf (ts : List Nat) : List Int :=
  (ts.zip ts.tail).map (fun p => (p.2 : Int) - (p.1 : Int))

/-- `[b - a for a, b in zip(offsets, offsets[1:])]`. -/
def gapsOf (offsets : List Nat) : List Int :=
  (offsets.zip offsets.tail).map (fun p => (p.2 : Int) - (p.1 : Int))

/-- `if xs: print(min(xs), max(xs))` — the min/max pair of a list, absent
when the list is empty. -/
def minmaxOf (l : List Int) : Option (Int × Int) :=
  match l.min?, l.max? with
  | some a, some b => some (a, b)
  | _, _ => none

/-- The statistics block of `main` guarded by `if ok > 1:`: the monotonic
ratio as a (numerator, denominator) pair `mono / (len(ts) - 1)`, the
timestamp-delta extremes, and the offset-gap extremes.  `none` when
`ok <= 1`: nothing below that guard is computed at all. -/
def main_report (ok : Nat) (ts offsets : List Nat) :
    Option ((Nat × Nat) × Option (Int × Int) × Option (Int × Int)) :=
  if 1 < ok then
    some ((monoCount ts, ts.length - 1), minmaxOf (deltasOf ts), minmaxOf (gapsOf offsets))
  else none

/-- A buffer of genuine bytes: every entry is in 0..255, as produced by
Python's `bytes`. -/
def ByteBuf (data : List Nat) : Prop := ∀ b ∈ data, b < 256

instance : DecidablePred ByteBuf := fun data =>
  inferInstanceAs (Decidable (∀ b ∈ data, b < 256))

/-- Flip bit `k` of a buffer (byte `k / 8`, bit `k % 8` within it). -/
def flipBit (data : List Nat) (k : Nat) : List Nat :=
  data.set (k / 8) ((data.getD (k / 8) 0) ^^^ 2 ^ (k % 8))

/-- A concrete valid 68-byte frame: header, zero payload, counter 16 at
offset 56, and its firmware CRC (computed over bytes `[0,64)` with seed 1)
stored little-endian in the last 4 bytes. -/
def FrameA : List Nat :=
  [0xA5, 0x5A, 0x01, 0x3C] ++ List.replicate 52 0 ++
    [16, 0, 0, 0] ++ [0, 0, 0, 0] ++ [195, 247, 21, 71]

/-- A second concrete valid 68-byte frame, with counter 32. -/
def FrameB : List Nat :=
  [0xA5, 0x5A, 0x01, 0x3C] ++ List.replicate 52 0 ++
    [32, 0, 0, 0] ++ [0, 0, 0, 0] ++ [190, 164, 216, 194]

/-- A 73-byte capture: a false header match at offset 0 (its 68-byte
candidate fails the checksum), then a true valid frame starting at offset 5. -/
def DecoyBuf : List Nat := [0xA5, 0x5A, 0x01, 0x3C, 0x00] ++ FrameA

/-- An 8-byte buffer crafted so that with `frame_size = 8` the candidate at
offset 0 passes the checksum, driving the scan into the counter read at
frame offset 56 — which is out of range for an 8-byte frame. -/
def Bad8Buf : List Nat := [0xA5, 0x5A, 0x01, 0x3C] ++ [242, 104, 86, 149]

/-- Two concrete valid frames back to back (136 bytes). -/
def ConcatAB : List Nat := FrameA ++ FrameB

/-! ## Arithmetic helper lemmas -/

theorem and255_eq_mod (x : Nat) : x &&& 0xFF = x % 256 := by
  have h := Nat.and_pow_two_sub_one_eq_mod x 8
  norm_num at h
  exact h

theorem and255_lt (x : Nat) : x &&& 0xFF < 256 := by
  have h : x &&& 0xFF ≤ 0xFF := Nat.and_le_right
  omega

theorem andMask_of_lt {x : Nat} (h : x < 2 ^ 32) : x &&& 0xFFFFFFFF = x := by
  have h2 := Nat.and_pow_two_sub_one_of_lt_two_pow h
  norm_num at h2
  exact h2

theorem shiftRight8_eq_div (x : Nat) : x >>> 8 = x / 256 := by
  rw [Nat.shiftRight_eq_div_pow]

theorem xor_cancel_left (a x : Nat) : a ^^^ (a ^^^ x) = x := by
  rw [← Nat.xor_assoc, Nat.xor_self, Nat.zero_xor]

theorem xor4_comm (a b c d : Nat) : (a ^^^ b) ^^^ (c ^^^ d) = (a ^^^ c) ^^^ (b ^^^ d) := by
  refine Nat.eq_of_testBit_eq fun i => ?_
  simp only [Nat.testBit_xor]
  generalize a.testBit i = w
  generalize b.testBit i = x
  generalize c.testBit i = y
  generalize d.testBit i = z
  revert w x y z
  decide

theorem shiftRight_xor (x y n : Nat) : (x ^^^ y) >>> n = (x >>> n) ^^^ (y >>> n) := by
  refine Nat.eq_of_testBit_eq fun i => ?_
  simp

/-! ## Table lemmas -/

theorem CRC32_TAB_length : CRC32_TAB.length = 256 := by
  simp [CRC32_TAB, build_crc32_table]

theorem CRC32_TAB_getD {i : Nat} (h : i < 256) : CRC32_TAB.getD i 0 = crcEntry i := by
  simp [CRC32_TAB, build_crc32_table, List.getD_eq_getElem?_getD, List.getElem?_map,
    List.getElem?_range h]

theorem crcRound_lt32 {c : Nat} (h : c < 2 ^ 32) : crcRound c < 2 ^ 32 := by
  unfold crcRound
  have h1 : c >>> 1 < 2 ^ 32 := by
    rw [Nat.shiftRight_eq_div_pow]
    exact Nat.lt_of_le_of_lt (Nat.div_le_self _ _) h
  split
  · exact Nat.xor_lt_two_pow (by norm_num) h1
  · exact h1

theorem crcRounds_lt32 (n : Nat) : ∀ {c : Nat}, c < 2 ^ 32 → crcRounds n c < 2 ^ 32 := by
  induction n with
  | zero => intro c h; exact h
  | succ n ih => intro c h; exact ih (crcRound_lt32 h)

theorem crcEntry_lt32 {i : Nat} (h : i < 2 ^ 32) : crcEntry i < 2 ^ 32 :=
  crcRounds_lt32 8 h

theorem CRC32_TAB_getD_lt32 (i : Nat) : CRC32_TAB.getD i 0 < 2 ^ 32 := by
  by_cases h : i < 256
  · rw [CRC32_TAB_getD h]
    exact crcEntry_lt32 (by omega)
  · rw [List.getD_eq_getElem?_getD, List.getElem?_eq_none (by rw [CRC32_TAB_length]; omega)]
    norm_num

theorem crcStep_lt32 {c : Nat} (h : c < 2 ^ 32) (b : Nat) : crcStep c b < 2 ^ 32 := by
  unfold crcStep
  refine Nat.xor_lt_two_pow (CRC32_TAB_getD_lt32 _) ?_
  rw [shiftRight8_eq_div]
  exact Nat.lt_of_le_of_lt (Nat.div_le_self _ _) h

theorem foldl_crcStep_lt32 (l : List Nat) : ∀ {c : Nat}, c < 2 ^ 32 →
    l.foldl crcStep c < 2 ^ 32 := by
  induction l with
  | nil => intro c h; exact h
  | cons b l ih => intro c h; exact ih (crcStep_lt32 h b)

theorem crc32_fw_eq_foldl {buf : List Nat} {crc : Nat} (h : crc < 2 ^ 32) :
    crc32_fw buf crc = buf.foldl crcStep crc := by
  unfold crc32_fw
  exact andMask_of_lt (foldl_crcStep_lt32 buf h)

theorem crc32_fw_nil_of_lt {seed : Nat} (h : seed < 2 ^ 32) : crc32_fw [] seed = seed :=
  crc32_fw_eq_foldl h

/-! ## Claim C8 -/

/-- C8 (counterexample): the claim quantifies over *every* seed value, but
the final `& 0xFFFFFFFF` truncates: on the empty buffer with seed `2^32`
the function returns `0`, not the seed — so "returns the seed unchanged for
every seed value" is false as stated. -/
theorem crc32_fw_empty_truncates_large_seed : crc32_fw [] (2 ^ 32) ≠ 2 ^ 32 := by
  decide

/-- C8 (amended): for every seed below `2^32` — every unsigned 32-bit seed —
`crc32_fw` on the empty buffer returns the seed unchanged; in particular it
returns 1 on seed 1. -/
theorem crc32_fw_empty_id (seed : Nat) (h : seed < 2 ^ 32) : crc32_fw [] seed = seed :=
  crc32_fw_nil_of_lt h

/-- Witness for C8 at the concrete seed 1: `crc32_fw(b"", 1) == 1`. -/
theorem crc32_fw_empty_id_witness : crc32_fw [] 1 = 1 :=
  crc32_fw_empty_id 1 (by norm_num)

/-! ## Claim C2: the implementation refines the 32-bit-wraparound reference -/

theorem specRound_eq (c : Nat) : specRound c = crcRound c := by
  unfold specRound crcRound
  have h1 : c >>> 1 = c / 2 := by rw [Nat.shiftRight_eq_div_pow]
  rw [Nat.and_one_is_mod, h1]
  split
  · exact Nat.xor_comm _ _
  · rfl

theorem specRounds_eq (n : Nat) : ∀ c, specRounds n c = crcRounds n c := by
  induction n with
  | zero => intro c; rfl
  | succ n ih => intro c; rw [specRounds, crcRounds, ih, specRound_eq]

theorem specTable_eq (i : Nat) : specTable i = crcEntry i := specRounds_eq 8 i

theorem crcStep_eq_specStep {seed : Nat} (b : Nat) (h : seed < 2 ^ 32) :
    (specTable ((seed ^^^ b) % 256) ^^^ seed / 256) % 2 ^ 32 = crcStep seed b := by
  have hs : crcStep seed b =
      specTable ((seed ^^^ b) % 256) ^^^ seed / 256 := by
    unfold crcStep
    rw [and255_eq_mod, CRC32_TAB_getD (Nat.mod_lt _ (by norm_num)),
      shiftRight8_eq_div, specTable_eq]
  rw [← hs]
  exact Nat.mod_eq_of_lt (crcStep_lt32 h b)

/-- C2: for every buffer and every unsigned 32-bit seed, the Python
`crc32_fw` — unbounded integers, one single final `& 0xFFFFFFFF` mask —
computes exactly the reference reflected CRC32 defined over unsigned 32-bit
wraparound arithmetic (`crc32_spec`, which reduces mod `2^32` at every
step). -/
theorem crc32_fw_refines_spec (buf : List Nat) (seed : Nat) (h : seed < 2 ^ 32) :
    crc32_fw buf seed = crc32_spec buf seed := by
  induction buf generalizing seed with
  | nil =>
    rw [crc32_fw_nil_of_lt h]
    rfl
  | cons b l ih =>
    have h1 : crc32_fw (b :: l) seed = crc32_fw l (crcStep seed b) := by
      unfold crc32_fw
      rw [List.foldl_cons]
    rw [h1, ih _ (crcStep_lt32 h b)]
    unfold crc32_spec
    rw [List.foldl_cons, crcStep_eq_specStep b h]

/-- Witness for C2 at a concrete buffer and seed. -/
theorem crc32_fw_refines_spec_witness :
    crc32_fw [171, 205, 94] 1 = crc32_spec [171, 205, 94] 1 :=
  crc32_fw_refines_spec [171, 205, 94] 1 (by norm_num)

/-! ## headerAt lemmas -/

theorem headerAt_congr (l1 l2 : List Nat) (i j : Nat)
    (h0 : l1[i]? = l2[j]?) (h1 : l1[i + 1]? = l2[j + 1]?)
    (h2 : l1[i + 2]? = l2[j + 2]?) (h3 : l1[i + 3]? = l2[j + 3]?) :
    headerAt l1 i = headerAt l2 j := by
  unfold headerAt
  rw [h0, h1, h2, h3]

theorem headerAt_some {data : List Nat} {i b0 b1 b2 b3 : Nat}
    (h0 : data[i]? = some b0) (h1 : data[i + 1]? = some b1)
    (h2 : data[i + 2]? = some b2) (h3 : data[i + 3]? = some b3) :
    headerAt data i =
      some (decide (b0 = 0xA5) && (decide (b1 = 0x5A) &&
        (decide (b2 = 0x01) && decide (b3 = 0x3C)))) := by
  unfold headerAt
  rw [h0, h1, h2, h3]
  by_cases c0 : b0 = 0xA5 <;> by_cases c1 : b1 = 0x5A <;> by_cases c2 : b2 = 0x01 <;>
    simp [c0, c1, c2]

theorem headerAt_true_elim {data : List Nat} {i : Nat} (h : headerAt data i = some true) :
    data[i]? = some 0xA5 ∧ data[i + 1]? = some 0x5A ∧
      data[i + 2]? = some 0x01 ∧ data[i + 3]? = some 0x3C := by
  unfold headerAt at h
  split at h
  · exact absurd h (by simp)
  next b0 heq0 =>
    split at h
    · next c0 =>
      split at h
      · exact absurd h (by simp)
      next b1 heq1 =>
        split at h
        · next c1 =>
          split at h
          · exact absurd h (by simp)
          next b2 heq2 =>
            split at h
            · next c2 =>
              split at h
              · exact absurd h (by simp)
              next b3 heq3 =>
                simp only [Option.some.injEq, decide_eq_true_eq] at h
                exact ⟨by rw [heq0, c0], by rw [heq1, c1], by rw [heq2, c2], by rw [heq3, h]⟩
            · next c2 => exact absurd h (by simp)
        · next c1 => exact absurd h (by simp)
    · next c0 => exact absurd h (by simp)

/-- A `headerAt` probe whose four reads are all in range is never an
`IndexError`. -/
theorem headerAt_isSome (data : List Nat) (i : Nat) (h : i + 3 < data.length) :
    ∃ b, headerAt data i = some b := by
  refine ⟨_, headerAt_some (List.getElem?_eq_getElem (by omega))
    (List.getElem?_eq_getElem (by omega)) (List.getElem?_eq_getElem (by omega))
    (List.getElem?_eq_getElem h)⟩

/-! ## Scanner single-iteration lemmas -/

theorem scanGo_exit (data : List Nat) (fs fuel i ok bad : Nat) (ts offsets : List Nat)
    (h : ¬ i + fs ≤ data.length) :
    scanGo data fs (fuel + 1) i ok bad ts offsets = some (ok, bad, ts, offsets) := by
  simp [scanGo, h]

theorem scanGo_skip (data : List Nat) (fs fuel i ok bad : Nat) (ts offsets : List Nat)
    (hle : i + fs ≤ data.length) (hh : headerAt data i = some false) :
    scanGo data fs (fuel + 1) i ok bad ts offsets =
      scanGo data fs fuel (i + 1) ok bad ts offsets := by
  simp [scanGo, hle, hh]

theorem scanGo_bad (data : List Nat) (fs fuel i ok bad : Nat) (ts offsets : List Nat)
    (c : Nat) (hle : i + fs ≤ data.length) (hh : headerAt data i = some true)
    (hr : readLE32 ((data.drop i).take fs) (fs - 4) = some c)
    (hc : crc32_fw (((data.drop i).take fs).take (fs - 4)) 1 ≠ c) :
    scanGo data fs (fuel + 1) i ok bad ts offsets =
      scanGo data fs fuel (i + 1) ok (bad + 1) ts offsets := by
  have hmin : fs ⊓ (data.length - i) = fs := by omega
  simp [scanGo, hle, hh, hr, hmin, hc]

theorem scanGo_valid (data : List Nat) (fs fuel i ok bad : Nat) (ts offsets : List Nat)
    (c tsv : Nat) (hle : i + fs ≤ data.length) (hh : headerAt data i = some true)
    (hr : readLE32 ((data.drop i).take fs) (fs - 4) = some c)
    (hc : crc32_fw (((data.drop i).take fs).take (fs - 4)) 1 = c)
    (ht : readLE32 ((data.drop i).take fs) 56 = some tsv) :
    scanGo data fs (fuel + 1) i ok bad ts offsets =
      scanGo data fs fuel (i + fs) (ok + 1) bad (ts ++ [tsv]) (offsets ++ [i]) := by
  have hmin : fs ⊓ (data.length - i) = fs := by omega
  simp [scanGo, hle, hh, hr, hmin, hc, ht]

/-- A successful in-range `readLE32`, with its explicit value. -/
theorem readLE32_eq_some (buf : List Nat) (off : Nat) (h : off + 4 ≤ buf.length) :
    readLE32 buf off = some (buf.getD off 0 + 256 * buf.getD (off + 1) 0 +
      65536 * buf.getD (off + 2) 0 + 16777216 * buf.getD (off + 3) 0) := by
  unfold readLE32
  rw [if_pos h]

theorem scanGo_none_header (data : List Nat) (fs fuel i ok bad : Nat) (ts offsets : List Nat)
    (hle : i + fs ≤ data.length) (hh : headerAt data i = none) :
    scanGo data fs (fuel + 1) i ok bad ts offsets = none := by
  simp [scanGo, hle, hh]

theorem scanGo_none_recv (data : List Nat) (fs fuel i ok bad : Nat) (ts offsets : List Nat)
    (hle : i + fs ≤ data.length) (hh : headerAt data i = some true)
    (hr : readLE32 ((data.drop i).take fs) (fs - 4) = none) :
    scanGo data fs (fuel + 1) i ok bad ts offsets = none := by
  simp [scanGo, hle, hh, hr]

theorem scanGo_none_ts (data : List Nat) (fs fuel i ok bad : Nat) (ts offsets : List Nat)
    (c : Nat) (hle : i + fs ≤ data.length) (hh : headerAt data i = some true)
    (hr : readLE32 ((data.drop i).take fs) (fs - 4) = some c)
    (hc : crc32_fw (((data.drop i).take fs).take (fs - 4)) 1 = c)
    (ht : readLE32 ((data.drop i).take fs) 56 = none) :
    scanGo data fs (fuel + 1) i ok bad ts offsets = none := by
  have hmin : fs ⊓ (data.length - i) = fs := by omega
  simp [scanGo, hle, hh, hr, hmin, hc, ht]

/-! ## Claim C9: buffers shorter than one frame -/

/-- C9: a buffer shorter than `frame_size` yields 0 valid frames, 0 bad
hits and empty counter/offset lists — a normal result, not an error. -/
theorem analyze_file_short_buffer (data : List Nat) (fs : Nat) (_hB : ByteBuf data)
    (h : data.length < fs) : analyze_file data fs = some (0, 0, [], []) := by
  unfold analyze_file
  exact scanGo_exit data fs data.length 0 0 0 [] [] (by omega)

/-- Witness for C9 on a concrete 3-byte buffer. -/
theorem analyze_file_short_buffer_witness : analyze_file [1, 2, 3] 68 = some (0, 0, [], []) :=
  analyze_file_short_buffer [1, 2, 3] 68 (by decide) (by norm_num)

/-! ## Claim C1: one scan iteration at a header match -/

/-- C1: with the cursor at `i`, a full frame available and the four header
bytes present, the candidate is recorded as valid if and only if the
seed-1 checksum of frame bytes `[0,64)` equals the little-endian u32 stored
in the frame's last 4 bytes; when valid, `(i, LE32 at frame offset 56)` is
appended and the cursor advances by exactly 68, otherwise the bad-hit count
grows by exactly 1 and the cursor advances by exactly 1. -/
theorem scan_step_at_header (data : List Nat) (fuel i ok bad : Nat) (ts offsets : List Nat)
    (stored tsv : Nat) (_hB : ByteBuf data) (hle : i + 68 ≤ data.length)
    (h0 : data[i]? = some 0xA5) (h1 : data[i + 1]? = some 0x5A)
    (h2 : data[i + 2]? = some 0x01) (h3 : data[i + 3]? = some 0x3C)
    (hstored : readLE32 ((data.drop i).take 68) 64 = some stored)
    (htsv : readLE32 ((data.drop i).take 68) 56 = some tsv) :
    scanGo data 68 (fuel + 1) i ok bad ts offsets =
      if crc32_fw (((data.drop i).take 68).take 64) 1 = stored then
        scanGo data 68 fuel (i + 68) (ok + 1) bad (ts ++ [tsv]) (offsets ++ [i])
      else scanGo data 68 fuel (i + 1) ok (bad + 1) ts offsets := by
  have hh : headerAt data i = some true := by
    rw [headerAt_some h0 h1 h2 h3]
    rfl
  by_cases hc : crc32_fw (((data.drop i).take 68).take 64) 1 = stored
  · rw [if_pos hc]
    exact scanGo_valid data 68 fuel i ok bad ts offsets stored tsv hle hh hstored hc htsv
  · rw [if_neg hc]
    exact scanGo_bad data 68 fuel i ok bad ts offsets stored hle hh hstored hc

/-- Witness for C1 on the concrete valid frame `FrameA` at cursor 0. -/
theorem scan_step_at_header_witness :
    scanGo FrameA 68 2 0 0 0 [] [] =
      if crc32_fw (((FrameA.drop 0).take 68).take 64) 1 = 1192622019 then
        scanGo FrameA 68 1 (0 + 68) (0 + 1) 0 ([] ++ [16]) ([] ++ [0])
      else scanGo FrameA 68 1 (0 + 1) 0 (0 + 1) [] [] :=
  scan_step_at_header FrameA 1 0 0 0 [] [] 1192622019 16 (by decide) (by decide)
    (by decide) (by decide) (by decide) (by decide) (by decide) (by decide)

/-! ## Fuel adequacy and claim C5 -/

theorem scanGo_isSome_of_fuel (data : List Nat) (fs : Nat) (h60 : 60 ≤ fs) :
    ∀ fuel i ok bad ts offsets, data.length - i < fuel →
      (scanGo data fs fuel i ok bad ts offsets).isSome = true := by
  intro fuel
  induction fuel with
  | zero => intro i ok bad ts offsets h; exact absurd h (by omega)
  | succ fuel ih =>
    intro i ok bad ts offsets hfuel
    by_cases hle : i + fs ≤ data.length
    · obtain ⟨b, hb⟩ := headerAt_isSome data i (by omega)
      have hfrm : ((data.drop i).take fs).length = fs := by
        simp
        omega
      cases b with
      | false =>
        rw [scanGo_skip data fs fuel i ok bad ts offsets hle hb]
        exact ih (i + 1) ok bad ts offsets (by omega)
      | true =>
        have hc := readLE32_eq_some ((data.drop i).take fs) (fs - 4)
          (by rw [hfrm]; omega)
        have ht := readLE32_eq_some ((data.drop i).take fs) 56
          (by rw [hfrm]; omega)
        by_cases hcrc : crc32_fw (((data.drop i).take fs).take (fs - 4)) 1 =
            ((data.drop i).take fs).getD (fs - 4) 0 +
              256 * ((data.drop i).take fs).getD (fs - 4 + 1) 0 +
              65536 * ((data.drop i).take fs).getD (fs - 4 + 2) 0 +
              16777216 * ((data.drop i).take fs).getD (fs - 4 + 3) 0
        · rw [scanGo_valid data fs fuel i ok bad ts offsets _ _ hle hb hc hcrc ht]
          exact ih (i + fs) _ _ _ _ (by omega)
        · rw [scanGo_bad data fs fuel i ok bad ts offsets _ hle hb hc hcrc]
          exact ih (i + 1) _ _ _ _ (by omega)
    · rw [scanGo_exit data fs fuel i ok bad ts offsets hle]
      rfl

/-- C5 (counterexample): the claim promises no exception for every
`frame_size ≥ 8`, but with `frame_size = 8` and the crafted buffer
`Bad8Buf` — whose candidate frame passes the checksum — the scan reaches
`struct.unpack_from("<I", frm, 56)` on an 8-byte frame and raises
`struct.error` (modelled as `none`). -/
theorem analyze_file_raises_at_frame_size_8 : analyze_file Bad8Buf 8 = none := by
  decide

/-- C5 (amended): for every byte buffer and every `frame_size ≥ 60` (so
that the checksum field at `frame_size - 4` and the counter field at 56
both fit inside a frame), `analyze_file` terminates normally and never
raises — every failure is encoded in the bad-hit count. -/
theorem analyze_file_total_of_ge_60 (data : List Nat) (fs : Nat) (_hB : ByteBuf data)
    (h60 : 60 ≤ fs) : (analyze_file data fs).isSome = true :=
  scanGo_isSome_of_fuel data fs h60 (data.length + 1) 0 0 0 [] [] (by omega)

/-- Witness for C5 (amended) on a concrete short buffer. -/
theorem analyze_file_total_of_ge_60_witness : (analyze_file [1, 2, 3] 60).isSome = true :=
  analyze_file_total_of_ge_60 [1, 2, 3] 60 (by decide) (by norm_num)

/-! ## Fuel irrelevance: any sufficient fuel computes the same scan -/

theorem scanGo_fuel_succ (data : List Nat) (fs : Nat) (h1 : 1 ≤ fs) :
    ∀ fuel i ok bad ts offsets, data.length - i < fuel →
      scanGo data fs (fuel + 1) i ok bad ts offsets =
        scanGo data fs fuel i ok bad ts offsets := by
  intro fuel
  induction fuel with
  | zero => intro i ok bad ts offsets h; exact absurd h (by omega)
  | succ fuel ih =>
    intro i ok bad ts offsets hfuel
    by_cases hle : i + fs ≤ data.length
    · have hi : i < data.length := by omega
      have hfrm : ((data.drop i).take fs).length = fs := by
        simp
        omega
      cases hb : headerAt data i with
      | none =>
        rw [scanGo_none_header data fs (fuel + 1) i ok bad ts offsets hle hb,
          scanGo_none_header data fs fuel i ok bad ts offsets hle hb]
      | some b =>
        cases b with
        | false =>
          rw [scanGo_skip data fs (fuel + 1) i ok bad ts offsets hle hb,
            scanGo_skip data fs fuel i ok bad ts offsets hle hb]
          exact ih (i + 1) ok bad ts offsets (by omega)
        | true =>
          cases hc : readLE32 ((data.drop i).take fs) (fs - 4) with
          | none =>
            rw [scanGo_none_recv data fs (fuel + 1) i ok bad ts offsets hle hb hc,
              scanGo_none_recv data fs fuel i ok bad ts offsets hle hb hc]
          | some c =>
            by_cases hcrc : crc32_fw (((data.drop i).take fs).take (fs - 4)) 1 = c
            · cases ht : readLE32 ((data.drop i).take fs) 56 with
              | none =>
                rw [scanGo_none_ts data fs (fuel + 1) i ok bad ts offsets c hle hb hc hcrc ht,
                  scanGo_none_ts data fs fuel i ok bad ts offsets c hle hb hc hcrc ht]
              | some t =>
                rw [scanGo_valid data fs (fuel + 1) i ok bad ts offsets c t hle hb hc hcrc ht,
                  scanGo_valid data fs fuel i ok bad ts offsets c t hle hb hc hcrc ht]
                exact ih (i + fs) _ _ _ _ (by omega)
            · rw [scanGo_bad data fs (fuel + 1) i ok bad ts offsets c hle hb hc hcrc,
                scanGo_bad data fs fuel i ok bad ts offsets c hle hb hc hcrc]
              exact ih (i + 1) _ _ _ _ (by omega)
    · rw [scanGo_exit data fs (fuel + 1) i ok bad ts offsets hle,
        scanGo_exit data fs fuel i ok bad ts offsets hle]

theorem scanGo_fuel_canon (data : List Nat) (fs : Nat) (h1 : 1 ≤ fs)
    (i ok bad : Nat) (ts offsets : List Nat) :
    ∀ fuel, data.length - i < fuel →
      scanGo data fs fuel i ok bad ts offsets =
        scanGo data fs (data.length - i + 1) i ok bad ts offsets := by
  intro fuel
  induction fuel with
  | zero => intro h; exact absurd h (by omega)
  | succ fuel ih =>
    intro h
    rcases Nat.lt_or_ge (data.length - i) fuel with hlt | hge
    · rw [scanGo_fuel_succ data fs h1 fuel i ok bad ts offsets hlt, ih hlt]
    · have heq : fuel = data.length - i := by omega
      rw [heq]

/-- Over a stretch with no header match, the scan just slides the cursor:
the state on arrival at `m` is unchanged. -/
theorem scanGo_skip_range (data : List Nat) (fs : Nat) (h1 : 1 ≤ fs) :
    ∀ fuel i m ok bad ts offsets, i ≤ m → data.length - i < fuel →
      (∀ j, i ≤ j → j < m → j + fs ≤ data.length → headerAt data j = some false) →
      scanGo data fs fuel i ok bad ts offsets =
        scanGo data fs (data.length - m + 1) m ok bad ts offsets := by
  intro fuel
  induction fuel with
  | zero => intro i m ok bad ts offsets _ h _; exact absurd h (by omega)
  | succ fuel ih =>
    intro i m ok bad ts offsets him hfuel hno
    rcases Nat.eq_or_lt_of_le him with heq | hlt
    · subst heq
      exact scanGo_fuel_canon data fs h1 i ok bad ts offsets (fuel + 1) hfuel
    · by_cases hle : i + fs ≤ data.length
      · rw [scanGo_skip data fs fuel i ok bad ts offsets hle (hno i le_rfl hlt hle)]
        exact ih (i + 1) m ok bad ts offsets (by omega) (by omega)
          (fun j hj1 hj2 hj3 => hno j (by omega) hj2 hj3)
      · rw [scanGo_exit data fs fuel i ok bad ts offsets hle]
        have hm : ¬ m + fs ≤ data.length := by omega
        rw [scanGo_exit data fs (data.length - m) m ok bad ts offsets hm]

/-! ## Claim C3: resynchronization after a false header match -/

/-- C3: if the buffer has a header match at `k` whose 68-byte candidate
fails the checksum, a true valid frame at `k + 5`, and no header match at
any other scanned position, then the scan reports exactly 1 valid frame,
exactly 1 bad hit, and the single recorded offset is `k + 5`. -/
theorem resync_recovers_true_frame (data : List Nat) (k ck ct tv : Nat) (_hB : ByteBuf data)
    (hlen : k + 73 ≤ data.length)
    (hhk : headerAt data k = some true)
    (hck : readLE32 ((data.drop k).take 68) 64 = some ck)
    (hbad : crc32_fw (((data.drop k).take 68).take 64) 1 ≠ ck)
    (hh5 : headerAt data (k + 5) = some true)
    (hct : readLE32 ((data.drop (k + 5)).take 68) 64 = some ct)
    (hgood : crc32_fw (((data.drop (k + 5)).take 68).take 64) 1 = ct)
    (htv : readLE32 ((data.drop (k + 5)).take 68) 56 = some tv)
    (hno : ∀ j, j < data.length → j + 68 ≤ data.length → j ≠ k → j ≠ k + 5 →
      headerAt data j = some false) :
    analyze_file data 68 = some (1, 1, [tv], [k + 5]) := by
  have h68 : (1 : Nat) ≤ 68 := by norm_num
  unfold analyze_file
  rw [scanGo_skip_range data 68 h68 (data.length + 1) 0 k 0 0 [] [] (by omega) (by omega)
    (fun j _ hjk hj68 => hno j (by omega) hj68 (by omega) (by omega))]
  rw [scanGo_bad data 68 (data.length - k) k 0 0 [] [] ck (by omega) hhk hck hbad]
  rw [scanGo_skip_range data 68 h68 (data.length - k) (k + 1) (k + 5) 0 (0 + 1) [] []
    (by omega) (by omega)
    (fun j hj1 hj2 hj68 => hno j (by omega) hj68 (by omega) (by omega))]
  rw [scanGo_valid data 68 (data.length - (k + 5)) (k + 5) 0 (0 + 1) [] [] ct tv
    (by omega) hh5 hct hgood htv]
  rw [scanGo_skip_range data 68 h68 (data.length - (k + 5)) (k + 5 + 68) data.length
    (0 + 1) (0 + 1) ([] ++ [tv]) ([] ++ [k + 5]) (by omega) (by omega)
    (fun j hj1 hj2 hj68 => hno j (by omega) hj68 (by omega) (by omega))]
  rw [scanGo_exit data 68 (data.length - data.length) data.length (0 + 1) (0 + 1)
    ([] ++ [tv]) ([] ++ [k + 5]) (by omega)]
  simp

/-- Witness for C3 on the concrete 73-byte capture `DecoyBuf`: false header
at 0 (stored checksum field reads 0 there), true frame at 5. -/
theorem resync_recovers_true_frame_witness :
    analyze_file DecoyBuf 68 = some (1, 1, [16], [5]) := by
  simpa using resync_recovers_true_frame DecoyBuf 0 0 1192622019 16 (by decide) (by decide)
    (by decide) (by decide) (by decide) (by decide) (by decide) (by decide) (by decide)
    (by decide)

/-! ## The scan-result invariant (claims C10 and C7) -/

/-- What one `scanGo` run appends to its accumulators: equally many
counters and offsets, every new offset at least the entry cursor, and
consecutive new offsets at least `fs` apart. -/
theorem scanGo_delta (data : List Nat) (fs : Nat) :
    ∀ fuel i ok bad ts offsets ok' bad' ts' offs',
      scanGo data fs fuel i ok bad ts offsets = some (ok', bad', ts', offs') →
      ∃ dts doffs dbad, ts' = ts ++ dts ∧ offs' = offsets ++ doffs ∧
        ok' = ok + doffs.length ∧ bad' = bad + dbad ∧ dts.length = doffs.length ∧
        (∀ x ∈ doffs, i ≤ x) ∧ List.Chain' (fun a b => a + fs ≤ b) doffs := by
  intro fuel
  induction fuel with
  | zero =>
    intro i ok bad ts offsets ok' bad' ts' offs' h
    rw [show scanGo data fs 0 i ok bad ts offsets = none from rfl] at h
    exact Option.noConfusion h
  | succ fuel ih =>
    intro i ok bad ts offsets ok' bad' ts' offs' h
    by_cases hle : i + fs ≤ data.length
    · cases hb : headerAt data i with
      | none =>
        rw [scanGo_none_header data fs fuel i ok bad ts offsets hle hb] at h
        exact Option.noConfusion h
      | some b =>
        cases b with
        | false =>
          rw [scanGo_skip data fs fuel i ok bad ts offsets hle hb] at h
          obtain ⟨dts, doffs, dbad, h1, h2, h3, h4, h5, h6, h7⟩ := ih _ _ _ _ _ _ _ _ _ h
          exact ⟨dts, doffs, dbad, h1, h2, h3, h4, h5,
            fun x hx => by have := h6 x hx; omega, h7⟩
        | true =>
          cases hc : readLE32 ((data.drop i).take fs) (fs - 4) with
          | none =>
            rw [scanGo_none_recv data fs fuel i ok bad ts offsets hle hb hc] at h
            exact Option.noConfusion h
          | some c =>
            by_cases hcrc : crc32_fw (((data.drop i).take fs).take (fs - 4)) 1 = c
            · cases ht : readLE32 ((data.drop i).take fs) 56 with
              | none =>
                rw [scanGo_none_ts data fs fuel i ok bad ts offsets c hle hb hc hcrc ht] at h
                exact Option.noConfusion h
              | some t =>
                rw [scanGo_valid data fs fuel i ok bad ts offsets c t hle hb hc hcrc ht] at h
                obtain ⟨dts, doffs, dbad, h1, h2, h3, h4, h5, h6, h7⟩ := ih _ _ _ _ _ _ _ _ _ h
                refine ⟨t :: dts, i :: doffs, dbad, ?_, ?_, ?_, h4, ?_, ?_, ?_⟩
                · rw [h1]; simp
                · rw [h2]; simp
                · simp only [List.length_cons]; omega
                · simp only [List.length_cons]; omega
                · intro x hx
                  rcases List.mem_cons.mp hx with rfl | hx
                  · exact le_rfl
                  · have := h6 x hx; omega
                · refine List.Chain'.cons' h7 ?_
                  intro y hy
                  exact h6 y (List.mem_of_mem_head? hy)
            · rw [scanGo_bad data fs fuel i ok bad ts offsets c hle hb hc hcrc] at h
              obtain ⟨dts, doffs, dbad, h1, h2, h3, h4, h5, h6, h7⟩ := ih _ _ _ _ _ _ _ _ _ h
              exact ⟨dts, doffs, dbad + 1, h1, h2, h3, by omega, h5,
                fun x hx => by have := h6 x hx; omega, h7⟩
    · rw [scanGo_exit data fs fuel i ok bad ts offsets hle] at h
      simp only [Option.some.injEq, Prod.mk.injEq] at h
      obtain ⟨e1, e2, e3, e4⟩ := h
      subst e1; subst e2; subst e3; subst e4
      exact ⟨[], [], 0, by simp, by simp, by simp, by simp, by simp, by simp, by simp⟩

/-- C10: every normally-terminating scan satisfies the well-formedness
invariant — valid-frame count equals the lengths of both extracted lists,
recorded offsets are strictly increasing, and consecutive offsets are at
least `frame_size` apart (validated frames never overlap). -/
theorem scan_result_invariant (data : List Nat) (fs ok bad : Nat) (ts offs : List Nat)
    (_hB : ByteBuf data) (hfs : 1 ≤ fs)
    (h : analyze_file data fs = some (ok, bad, ts, offs)) :
    ok = ts.length ∧ ok = offs.length ∧
      List.Chain' (fun a b => a + fs ≤ b) offs ∧ List.Chain' (· < ·) offs := by
  obtain ⟨dts, doffs, dbad, h1, h2, h3, h4, h5, h6, h7⟩ :=
    scanGo_delta data fs (data.length + 1) 0 0 0 [] [] ok bad ts offs h
  simp only [List.nil_append] at h1 h2
  subst h1; subst h2
  refine ⟨by omega, by omega, h7, h7.imp ?_⟩
  intro a b hab
  omega

/-- Witness for C10 on the concrete two-frame capture. -/
theorem scan_result_invariant_witness :
    2 = [16, 32].length ∧ 2 = [0, 68].length ∧
      List.Chain' (fun a b => a + 68 ≤ b) [0, 68] ∧ List.Chain' (· < ·) [0, 68] :=
  scan_result_invariant ConcatAB 68 2 0 [16, 32] [0, 68] (by decide) (by norm_num) (by decide)

/-- C7: when a scan yields `n ≥ 2` valid frames `main` reports the
monotonic ratio as `count / (n - 1)` with `count` the number of adjacent
counter pairs with `next ≥ previous`; with 0 or 1 valid frames neither the
ratio nor the delta/gap statistics are computed at all — the whole block is
skipped, no division by zero and no crash. -/
theorem mono_ratio_guard (data : List Nat) (fs ok bad : Nat) (ts offs : List Nat)
    (h : analyze_file data fs = some (ok, bad, ts, offs)) :
    (2 ≤ ok → main_report ok ts offs =
        some ((monoCount ts, ok - 1), minmaxOf (deltasOf ts), minmaxOf (gapsOf offs))) ∧
    (ok < 2 → main_report ok ts offs = none) := by
  have hlen : ts.length = ok := by
    obtain ⟨dts, doffs, dbad, h1, h2, h3, _, h5, _, _⟩ :=
      scanGo_delta data fs (data.length + 1) 0 0 0 [] [] ok bad ts offs h
    simp only [List.nil_append] at h1
    subst h1
    omega
  constructor
  · intro h2
    unfold main_report
    rw [if_pos (by omega), hlen]
  · intro h2
    unfold main_report
    rw [if_neg (by omega)]

/-- Witness for C7 on the concrete two-frame capture (2 valid frames). -/
theorem mono_ratio_guard_witness :
    main_report 2 [16, 32] [0, 68] =
      some ((monoCount [16, 32], 2 - 1), minmaxOf (deltasOf [16, 32]), minmaxOf (gapsOf [0, 68])) :=
  (mono_ratio_guard ConcatAB 68 2 0 [16, 32] [0, 68] (by decide)).1 (by norm_num)

/-! ## Single-frame extraction and claim C6 -/

theorem scanGo_exit' (data : List Nat) (fs fuel i ok bad : Nat) (ts offsets : List Nat)
    (hf : 1 ≤ fuel) (h : ¬ i + fs ≤ data.length) :
    scanGo data fs fuel i ok bad ts offsets = some (ok, bad, ts, offsets) := by
  cases fuel with
  | zero => omega
  | succ fuel => exact scanGo_exit data fs fuel i ok bad ts offsets h

/-- A 68-byte buffer that scans as exactly one valid frame with no bad hit
has a true header at 0, a checksum match, and records its counter and the
offset 0. -/
theorem single_frame_extract (B : List Nat) (ts offs : List Nat)
    (hlen : B.length = 68) (h : analyze_file B 68 = some (1, 0, ts, offs)) :
    ∃ c t, headerAt B 0 = some true ∧ readLE32 B 64 = some c ∧
      crc32_fw (B.take 64) 1 = c ∧ readLE32 B 56 = some t ∧ ts = [t] ∧ offs = [0] := by
  unfold analyze_file at h
  have hle : 0 + 68 ≤ B.length := by omega
  have hfrm : (B.drop 0).take 68 = B := by
    rw [List.drop_zero, List.take_of_length_le (by omega)]
  cases hb : headerAt B 0 with
  | none =>
    rw [scanGo_none_header B 68 B.length 0 0 0 [] [] hle hb] at h
    exact Option.noConfusion h
  | some b =>
    cases b with
    | false =>
      rw [scanGo_skip B 68 B.length 0 0 0 [] [] hle hb,
        scanGo_exit' B 68 B.length 1 0 0 [] [] (by omega) (by omega)] at h
      simp at h
    | true =>
      cases hc : readLE32 ((B.drop 0).take 68) (68 - 4) with
      | none =>
        rw [scanGo_none_recv B 68 B.length 0 0 0 [] [] hle hb hc] at h
        exact Option.noConfusion h
      | some c =>
        by_cases hcrc : crc32_fw (((B.drop 0).take 68).take (68 - 4)) 1 = c
        · cases ht : readLE32 ((B.drop 0).take 68) 56 with
          | none =>
            rw [scanGo_none_ts B 68 B.length 0 0 0 [] [] c hle hb hc hcrc ht] at h
            exact Option.noConfusion h
          | some t =>
            rw [scanGo_valid B 68 B.length 0 0 0 [] [] c t hle hb hc hcrc ht,
              scanGo_exit' B 68 B.length (0 + 68) (0 + 1) 0 ([] ++ [t]) ([] ++ [0])
                (by omega) (by omega)] at h
            simp only [Option.some.injEq, Prod.mk.injEq] at h
            rw [hfrm] at hc ht hcrc
            exact ⟨c, t, rfl, hc, hcrc, ht, by simp [h.2.2.1.symm], by simp [h.2.2.2.symm]⟩
        · rw [scanGo_bad B 68 B.length 0 0 0 [] [] c hle hb hc hcrc,
            scanGo_exit' B 68 B.length (0 + 1) 0 (0 + 1) [] [] (by omega) (by omega)] at h
          simp at h

/-- C6: two 68-byte buffers that each scan as one valid frame and no bad
hits concatenate to a capture scanning as exactly 2 valid frames at offsets
0 and 68 (gap exactly 68) with 0 bad hits. -/
theorem back_to_back_frames (F1 F2 : List Nat) (ts1 offs1 ts2 offs2 : List Nat)
    (_hB1 : ByteBuf F1) (_hB2 : ByteBuf F2)
    (hl1 : F1.length = 68) (hl2 : F2.length = 68)
    (h1 : analyze_file F1 68 = some (1, 0, ts1, offs1))
    (h2 : analyze_file F2 68 = some (1, 0, ts2, offs2)) :
    analyze_file (F1 ++ F2) 68 = some (2, 0, ts1 ++ ts2, [0, 68]) := by
  obtain ⟨c1, t1, hh1, hc1, hcrc1, ht1, hts1, hoffs1⟩ := single_frame_extract F1 ts1 offs1 hl1 h1
  obtain ⟨c2, t2, hh2, hc2, hcrc2, ht2, hts2, hoffs2⟩ := single_frame_extract F2 ts2 offs2 hl2 h2
  have hlen12 : (F1 ++ F2).length = 136 := by simp [hl1, hl2]
  have hfrm1 : ((F1 ++ F2).drop 0).take 68 = F1 := by
    rw [List.drop_zero, List.take_left' hl1]
  have hh1' : headerAt (F1 ++ F2) 0 = some true := by
    rw [headerAt_congr (F1 ++ F2) F1 0 0
      (List.getElem?_append_left (by omega)) (List.getElem?_append_left (by omega))
      (List.getElem?_append_left (by omega)) (List.getElem?_append_left (by omega)), hh1]
  have hdrop2 : (F1 ++ F2).drop (0 + 68) = F2 := by
    rw [show (0 + 68 : Nat) = F1.length by omega, List.drop_left]
  have hfrm2 : ((F1 ++ F2).drop (0 + 68)).take 68 = F2 := by
    rw [hdrop2, List.take_of_length_le (by omega)]
  have hh2' : headerAt (F1 ++ F2) (0 + 68) = some true := by
    have e0 : (F1 ++ F2)[0 + 68]? = F2[0]? := by
      rw [List.getElem?_append_right (by omega)]
      simp [hl1]
    have e1 : (F1 ++ F2)[0 + 68 + 1]? = F2[0 + 1]? := by
      rw [List.getElem?_append_right (by omega)]
      simp [hl1]
    have e2 : (F1 ++ F2)[0 + 68 + 2]? = F2[0 + 2]? := by
      rw [List.getElem?_append_right (by omega)]
      simp [hl1]
    have e3 : (F1 ++ F2)[0 + 68 + 3]? = F2[0 + 3]? := by
      rw [List.getElem?_append_right (by omega)]
      simp [hl1]
    rw [headerAt_congr (F1 ++ F2) F2 (0 + 68) 0 e0 e1 e2 e3, hh2]
  unfold analyze_file
  rw [hlen12]
  rw [scanGo_valid (F1 ++ F2) 68 136 0 0 0 [] [] c1 t1 (by omega) hh1'
    (by rw [hfrm1]; exact hc1) (by rw [hfrm1]; exact hcrc1) (by rw [hfrm1]; exact ht1)]
  rw [show (136 : Nat) = 135 + 1 from rfl]
  rw [scanGo_valid (F1 ++ F2) 68 135 (0 + 68) (0 + 1) 0 ([] ++ [t1]) ([] ++ [0]) c2 t2
    (by omega) hh2' (by rw [hfrm2]; exact hc2) (by rw [hfrm2]; exact hcrc2)
    (by rw [hfrm2]; exact ht2)]
  rw [scanGo_exit' (F1 ++ F2) 68 135 (0 + 68 + 68) (0 + 1 + 1) 0 (([] ++ [t1]) ++ [t2])
    (([] ++ [0]) ++ [0 + 68]) (by omega) (by omega)]
  simp [hts1, hts2]

/-- Witness for C6 on the concrete frames `FrameA` and `FrameB`. -/
theorem back_to_back_frames_witness :
    analyze_file (FrameA ++ FrameB) 68 = some (2, 0, [16] ++ [32], [0, 68]) :=
  back_to_back_frames FrameA FrameB [16] [0] [32] [0] (by decide) (by decide) (by decide)
    (by decide) (by decide) (by decide)

/-! ## CRC linearity over GF(2) and claim C4 -/

theorem xor_left_comm (a b c : Nat) : a ^^^ (b ^^^ c) = b ^^^ (a ^^^ c) := by
  rw [← Nat.xor_assoc, Nat.xor_comm a b, Nat.xor_assoc]

theorem xor_ne_self {a d : Nat} (hd : d ≠ 0) : a ^^^ d ≠ a := by
  intro h
  apply hd
  have h2 : a ^^^ (a ^^^ d) = a ^^^ a := by rw [h]
  rw [xor_cancel_left, Nat.xor_self] at h2
  exact h2

theorem crcRound_xor (x y : Nat) : crcRound (x ^^^ y) = crcRound x ^^^ crcRound y := by
  unfold crcRound
  rw [Nat.and_one_is_mod, Nat.and_one_is_mod, Nat.and_one_is_mod, shiftRight_xor]
  have hpar := @Nat.xor_mod_two_eq_one x y
  rcases Nat.mod_two_eq_zero_or_one x with ex | ex <;>
    rcases Nat.mod_two_eq_zero_or_one y with ey | ey
  · have hxy : ¬ (x ^^^ y) % 2 = 1 := by rw [hpar]; simp [ex, ey]
    rw [if_neg hxy, if_neg (show ¬ x % 2 = 1 by omega), if_neg (show ¬ y % 2 = 1 by omega)]
  · have hxy : (x ^^^ y) % 2 = 1 := hpar.mpr (by simp [ex, ey])
    rw [if_pos hxy, if_neg (show ¬ x % 2 = 1 by omega), if_pos ey]
    exact xor_left_comm _ _ _
  · have hxy : (x ^^^ y) % 2 = 1 := hpar.mpr (by simp [ex, ey])
    rw [if_pos hxy, if_pos ex, if_neg (show ¬ y % 2 = 1 by omega)]
    exact (Nat.xor_assoc _ _ _).symm
  · have hxy : ¬ (x ^^^ y) % 2 = 1 := by rw [hpar]; simp [ex, ey]
    rw [if_neg hxy, if_pos ex, if_pos ey, xor4_comm, Nat.xor_self, Nat.zero_xor]

theorem crcRounds_xor (n : Nat) : ∀ x y, crcRounds n (x ^^^ y) = crcRounds n x ^^^ crcRounds n y := by
  induction n with
  | zero => intro x y; rfl
  | succ n ih =>
    intro x y
    show crcRounds n (crcRound (x ^^^ y)) = crcRounds n (crcRound x) ^^^ crcRounds n (crcRound y)
    rw [crcRound_xor]
    exact ih _ _

theorem crcEntry_xor (x y : Nat) : crcEntry (x ^^^ y) = crcEntry x ^^^ crcEntry y :=
  crcRounds_xor 8 x y

theorem tab_getD_xor {u v : Nat} (hu : u < 256) (hv : v < 256) :
    CRC32_TAB.getD (u ^^^ v) 0 = CRC32_TAB.getD u 0 ^^^ CRC32_TAB.getD v 0 := by
  have h256 : (2 : Nat) ^ 8 = 256 := by norm_num
  have huv : u ^^^ v < 256 := by
    have h := Nat.xor_lt_two_pow (show u < 2 ^ 8 by omega) (show v < 2 ^ 8 by omega)
    omega
  rw [CRC32_TAB_getD huv, CRC32_TAB_getD hu, CRC32_TAB_getD hv, crcEntry_xor]

/-- The CRC update step is GF(2)-linear in the pair (accumulator, byte). -/
theorem crcStep_xor (x a y b : Nat) :
    crcStep (x ^^^ y) (a ^^^ b) = crcStep x a ^^^ crcStep y b := by
  unfold crcStep
  have hidx : ((x ^^^ y) ^^^ (a ^^^ b)) &&& 0xFF =
      ((x ^^^ a) &&& 0xFF) ^^^ ((y ^^^ b) &&& 0xFF) := by
    rw [xor4_comm, Nat.and_xor_distrib_right]
  rw [hidx, tab_getD_xor (and255_lt _) (and255_lt _), shiftRight_xor, xor4_comm]

/-- Every nonzero byte's table entry has a nonzero top byte (checked by
evaluation over all 256 entries). -/
theorem topByte_nonzero : ∀ b, b < 256 → crcEntry b >>> 24 = 0 → b = 0 := by decide

theorem crcStep_zero_ne {c : Nat} (hc : c < 2 ^ 32) (h0 : c ≠ 0) : crcStep c 0 ≠ 0 := by
  intro h
  unfold crcStep at h
  rw [Nat.xor_zero] at h
  have heq : CRC32_TAB.getD (c &&& 0xFF) 0 = c >>> 8 := Nat.xor_eq_zero.mp h
  have hlt : c &&& 0xFF < 256 := and255_lt c
  have htop : crcEntry (c &&& 0xFF) >>> 24 = 0 := by
    rw [← CRC32_TAB_getD hlt, heq, ← Nat.shiftRight_add, show (8 : Nat) + 24 = 32 from rfl,
      Nat.shiftRight_eq_div_pow]
    exact Nat.div_eq_of_lt hc
  have hbyte := topByte_nonzero (c &&& 0xFF) hlt htop
  rw [hbyte] at heq
  have hz : CRC32_TAB.getD 0 0 = 0 := by decide
  rw [hz] at heq
  have hmod : c % 256 = 0 := by rw [← and255_eq_mod, hbyte]
  have hdiv : c / 256 = 0 := by rw [← shiftRight8_eq_div, ← heq]
  omega

theorem crcStep_inj {c1 c2 : Nat} (b : Nat) (h1 : c1 < 2 ^ 32) (h2 : c2 < 2 ^ 32)
    (h : crcStep c1 b = crcStep c2 b) : c1 = c2 := by
  by_contra hne
  have hx0 : c1 ^^^ c2 ≠ 0 := fun h0 => hne (Nat.xor_eq_zero.mp h0)
  have hlt : c1 ^^^ c2 < 2 ^ 32 := Nat.xor_lt_two_pow h1 h2
  have hz : crcStep (c1 ^^^ c2) 0 = 0 := by
    have hx := crcStep_xor c1 b c2 b
    rw [Nat.xor_self] at hx
    rw [hx, h, Nat.xor_self]
  exact crcStep_zero_ne hlt hx0 hz

theorem foldl_crcStep_inj (l : List Nat) : ∀ {c1 c2 : Nat}, c1 < 2 ^ 32 → c2 < 2 ^ 32 →
    l.foldl crcStep c1 = l.foldl crcStep c2 → c1 = c2 := by
  induction l with
  | nil => intro c1 c2 _ _ h; exact h
  | cons b l ih =>
    intro c1 c2 h1 h2 h
    rw [List.foldl_cons, List.foldl_cons] at h
    exact crcStep_inj b h1 h2 (ih (crcStep_lt32 h1 b) (crcStep_lt32 h2 b) h)

/-- Flipping one bit of one byte changes the seed-1 firmware CRC. -/
theorem crc32_fw_set_ne (l : List Nat) (p j : Nat) (hp : p < l.length) (hj : j < 8) :
    crc32_fw (l.set p (l.getD p 0 ^^^ 2 ^ j)) 1 ≠ crc32_fw l 1 := by
  have hgetD : l.getD p 0 = l[p] := by
    rw [List.getD_eq_getElem?_getD, List.getElem?_eq_getElem hp]
    rfl
  have hset : l.set p (l.getD p 0 ^^^ 2 ^ j) =
      l.take p ++ (l[p] ^^^ 2 ^ j) :: l.drop (p + 1) := by
    rw [hgetD, List.set_eq_take_cons_drop _ hp]
  have hl : l = l.take p ++ l[p] :: l.drop (p + 1) := by
    conv_lhs => rw [← List.take_append_drop p l]
    rw [List.drop_eq_getElem_cons hp]
  rw [crc32_fw_eq_foldl (by norm_num), crc32_fw_eq_foldl (by norm_num), hset]
  conv_rhs => rw [hl]
  rw [List.foldl_append, List.foldl_append, List.foldl_cons, List.foldl_cons]
  have hMlt : (l.take p).foldl crcStep 1 < 2 ^ 32 := foldl_crcStep_lt32 _ (by norm_num)
  have h2j : (2 : Nat) ^ j < 256 := by
    have h27 : (2 : Nat) ^ j ≤ 2 ^ 7 := Nat.pow_le_pow_right (by norm_num) (by omega)
    have h27' : (2 : Nat) ^ 7 = 128 := by norm_num
    omega
  have hstep : crcStep ((l.take p).foldl crcStep 1) (l[p] ^^^ 2 ^ j) =
      crcStep ((l.take p).foldl crcStep 1) l[p] ^^^ crcEntry (2 ^ j) := by
    have hx := crcStep_xor ((l.take p).foldl crcStep 1) l[p] 0 (2 ^ j)
    rw [Nat.xor_zero] at hx
    rw [hx]
    congr 1
    unfold crcStep
    rw [Nat.zero_xor, and255_eq_mod, Nat.mod_eq_of_lt h2j, CRC32_TAB_getD h2j]
    simp
  rw [hstep]
  have hD : crcEntry (2 ^ j) ≠ 0 := by
    have hall : ∀ jj, jj < 8 → crcEntry (2 ^ jj) ≠ 0 := by decide
    exact hall j hj
  intro heq
  exact xor_ne_self hD (foldl_crcStep_inj _
    (by rw [← hstep]; exact crcStep_lt32 hMlt _) (crcStep_lt32 hMlt _) heq)

theorem getD_set_ne {l : List Nat} {p m : Nat} (h : p ≠ m) (a : Nat) :
    (l.set p a).getD m 0 = l.getD m 0 := by
  rw [List.getD_eq_getElem?_getD, List.getD_eq_getElem?_getD, List.getElem?_set_ne h]

/-- A 4-byte read strictly above the modified index is unchanged. -/
theorem readLE32_set_lt {B : List Nat} {p off : Nat} (v : Nat) (h : p < off) :
    readLE32 (B.set p v) off = readLE32 B off := by
  unfold readLE32
  rw [List.length_set]
  split
  · rw [getD_set_ne (by omega) v, getD_set_ne (by omega) v, getD_set_ne (by omega) v,
      getD_set_ne (by omega) v]
  · rfl

/-- C4 (counterexample): the claim says flipping *any* bit of bytes
`[0,64)` yields 0 valid frames and 1 bad hit, but flipping bit 0 — inside
the header — makes the scanner not recognize a candidate at all: the
result is 0 valid frames and 0 bad hits, not 1. -/
theorem tamper_headerbit_not_bad_hit :
    analyze_file FrameA 68 = some (1, 0, [16], [0]) ∧
      analyze_file (flipBit FrameA 0) 68 ≠ some (0, 1, [], []) := by
  constructor
  · decide
  · decide

/-- C4 (amended): for a 68-byte byte buffer scanning as exactly 1 valid
frame and 0 bad hits, flipping any single bit of the checksummed non-header
bytes (bit positions 32–511, bytes `[4,64)`) reclassifies the frame as a
bad hit: 0 valid frames, 1 bad hit; flipping a bit of the 4 header bytes
(positions 0–31) instead removes the header match: 0 valid, 0 bad. -/
theorem tamper_flip_classification (B : List Nat) (ts offs : List Nat) (k : Nat)
    (_hB : ByteBuf B) (hlen : B.length = 68)
    (h : analyze_file B 68 = some (1, 0, ts, offs)) (hk : k < 512) :
    (32 ≤ k → analyze_file (flipBit B k) 68 = some (0, 1, [], [])) ∧
    (k < 32 → analyze_file (flipBit B k) 68 = some (0, 0, [], [])) := by
  obtain ⟨c, t, hh, hc, hcrc, ht, hts, hoffs⟩ := single_frame_extract B ts offs hlen h
  obtain ⟨e0, e1, e2, e3⟩ := headerAt_true_elim hh
  simp only [flipBit]
  obtain ⟨p, hpk⟩ : ∃ p, k / 8 = p := ⟨_, rfl⟩
  obtain ⟨j, hjk⟩ : ∃ j, k % 8 = j := ⟨_, rfl⟩
  rw [hpk, hjk]
  have hj8 : j < 8 := by omega
  have h2jne : (2 : Nat) ^ j ≠ 0 := (pow_pos (by norm_num) j).ne'
  have hlenB : (B.set p (B.getD p 0 ^^^ 2 ^ j)).length = 68 := by
    rw [List.length_set, hlen]
  constructor
  · intro h32
    have hp64 : 4 ≤ p ∧ p < 64 := by omega
    have hh' : headerAt (B.set p (B.getD p 0 ^^^ 2 ^ j)) 0 = some true := by
      rw [headerAt_congr (B.set p (B.getD p 0 ^^^ 2 ^ j)) B 0 0
        (List.getElem?_set_ne (by omega)) (List.getElem?_set_ne (by omega))
        (List.getElem?_set_ne (by omega)) (List.getElem?_set_ne (by omega)), hh]
    have hfrm' : (((B.set p (B.getD p 0 ^^^ 2 ^ j)).drop 0).take 68) =
        B.set p (B.getD p 0 ^^^ 2 ^ j) := by
      rw [List.drop_zero, List.take_of_length_le (by omega)]
    have hc' : readLE32 (B.set p (B.getD p 0 ^^^ 2 ^ j)) 64 = some c := by
      rw [readLE32_set_lt _ (by omega), hc]
    have hgetDtake : (B.take 64).getD p 0 = B.getD p 0 := by
      rw [List.getD_eq_getElem?_getD, List.getD_eq_getElem?_getD,
        List.getElem?_take_of_lt (by omega)]
    have hcrcne : crc32_fw ((B.set p (B.getD p 0 ^^^ 2 ^ j)).take 64) 1 ≠ c := by
      rw [← hcrc, List.set_take, ← hgetDtake]
      exact crc32_fw_set_ne (B.take 64) p j (by rw [List.length_take]; omega) hj8
    unfold analyze_file
    rw [hlenB]
    rw [scanGo_bad (B.set p (B.getD p 0 ^^^ 2 ^ j)) 68 68 0 0 0 [] [] c (by omega) hh'
      (by rw [hfrm']; exact hc') (by rw [hfrm']; exact hcrcne)]
    rw [scanGo_exit' (B.set p (B.getD p 0 ^^^ 2 ^ j)) 68 68 (0 + 1) 0 (0 + 1) [] []
      (by omega) (by omega)]
  · intro h32
    have hp4 : p < 4 := by omega
    have hh' : headerAt (B.set p (B.getD p 0 ^^^ 2 ^ j)) 0 = some false := by
      interval_cases p
      · rw [headerAt_some (List.getElem?_set_self (by omega))
          (by rw [List.getElem?_set_ne (by omega)]; exact e1)
          (by rw [List.getElem?_set_ne (by omega)]; exact e2)
          (by rw [List.getElem?_set_ne (by omega)]; exact e3)]
        simp [e0]
        exact xor_ne_self h2jne
      · rw [headerAt_some (by rw [List.getElem?_set_ne (by omega)]; exact e0)
          (List.getElem?_set_self (by omega))
          (by rw [List.getElem?_set_ne (by omega)]; exact e2)
          (by rw [List.getElem?_set_ne (by omega)]; exact e3)]
        simp [e1]
        exact xor_ne_self h2jne
      · rw [headerAt_some (by rw [List.getElem?_set_ne (by omega)]; exact e0)
          (by rw [List.getElem?_set_ne (by omega)]; exact e1)
          (List.getElem?_set_self (by omega))
          (by rw [List.getElem?_set_ne (by omega)]; exact e3)]
        simp [e2]
        exact xor_ne_self h2jne
      · rw [headerAt_some (by rw [List.getElem?_set_ne (by omega)]; exact e0)
          (by rw [List.getElem?_set_ne (by omega)]; exact e1)
          (by rw [List.getElem?_set_ne (by omega)]; exact e2)
          (List.getElem?_set_self (by omega))]
        simp [e3]
        exact xor_ne_self h2jne
    unfold analyze_file
    rw [hlenB]
    rw [scanGo_skip (B.set p (B.getD p 0 ^^^ 2 ^ j)) 68 68 0 0 0 [] [] (by omega) hh']
    rw [scanGo_exit' (B.set p (B.getD p 0 ^^^ 2 ^ j)) 68 68 (0 + 1) 0 0 [] []
      (by omega) (by omega)]

/-- Witness for C4 (amended) on `FrameA`, flipping bit 32 (byte 4, bit 0). -/
theorem tamper_flip_classification_witness :
    analyze_file (flipBit FrameA 32) 68 = some (0, 1, [], []) :=
  (tamper_flip_classification FrameA [16] [0] 32 (by decide) (by decide) (by decide)
    (by decide)).1 (by norm_num)

end IMU
